import Mathlib

/-!
Shallow embedding of the `MarketResearch` Solidity contract
(`contracts/MarketResearch.sol`, Solidity ^0.8.24, fhevm).

Modelling conventions:
* `uint32` / `uint256` values are `Nat`; Solidity 0.8 checked arithmetic on
  `uint32` is made explicit through `checkedAdd32` (reverting on overflow,
  panic 0x11), and the missing `bucketSize == 0` guard surfaces as the
  division-by-zero panic 0x12 (`EvmError.DivisionByZero`).
* A reverting call is `Except.error e`: the EVM rolls the whole transaction
  back, so a failed call leaves the contract state untouched by construction.
* `mapping(string => SurveyResponse)` is a total function with the zero
  struct as default, exactly as in the EVM storage model.  The contract's
  existence check `respondent == address(0)` is `respondent = 0`.
* The FHE precompiles (`FHE.fromExternal`, `FHE.toBytes32`,
  `FHE.checkSignatures`) are an opaque oracle `FheEnv`; `FHE.isInitialized`
  holds iff the produced handle is non-zero.  `FHE.allowThis` and
  `FHE.makePubliclyDecryptable` only touch the coprocessor ACL, not contract
  storage, and are therefore not part of the state.
* `abi.decode(payload, (uint32))` succeeds iff the 256-bit word is a clean
  `uint32`, i.e. the word is `< 2^32`; the decoded value is the word itself.
-/

def UINT32_BOUND : Nat := 4294967296

/-- Checked `uint32` addition of Solidity 0.8: `none` models the
arithmetic-overflow revert (panic 0x11). -/
def checkedAdd32 (a b : Nat) : Option Nat :=
  if a + b < UINT32_BOUND then some (a + b) else none

/-- The `SurveyResponse` struct of the contract. -/
structure SurveyResponse where
  encryptedAnswer : Nat
  publicMetadata : Nat
  respondent : Nat
  timestamp : Nat
  decryptedAnswer : Nat
  isVerified : Bool
deriving DecidableEq

/-- The all-zero struct: default value of an EVM `mapping` slot. -/
def emptyResponse : SurveyResponse :=
  { encryptedAnswer := 0, publicMetadata := 0, respondent := 0,
    timestamp := 0, decryptedAnswer := 0, isVerified := false }

/-- Events emitted by the contract. -/
inductive ContractEvent where
  | ResponseSubmitted (responseId : String) (respondent : Nat)
  | ResponseDecrypted (responseId : String) (decryptedAnswer : Nat)
deriving DecidableEq

/-- Revert reasons: `require` messages plus the panics and library reverts. -/
inductive EvmError where
  | Require (msg : String)
  | ProofCheckFailed
  | AbiDecodeError
  | ArithmeticOverflow
  | DivisionByZero
  | IndexOutOfBounds
deriving DecidableEq

/-- Opaque FHE oracle: the fhevm precompiles used by the contract. -/
structure FheEnv where
  fromExternal : Nat → List Nat → Nat
  toBytes32 : Nat → Nat
  checkSignatures : List Nat → Nat → List Nat → Bool

/-- Contract storage: the `surveyResponses` mapping, the `responseIds`
array and the emitted event log. -/
structure ContractState where
  surveyResponses : String → SurveyResponse
  responseIds : List String
  events : List ContractEvent

/-- Storage right after the constructor ran. -/
def initialState : ContractState :=
  { surveyResponses := fun _ => emptyResponse, responseIds := [], events := [] }

/-- `submitResponse(responseId, encryptedAnswer, inputProof, publicMetadata)`.
`sender` is `msg.sender`, `timestamp` is `block.timestamp`. -/
def submitResponse (env : FheEnv) (sender timestamp : Nat)
    (st : ContractState) (responseId : String)
    (encryptedAnswer : Nat) (inputProof : List Nat) (publicMetadata : Nat) :
    Except EvmError ContractState :=
  if (st.surveyResponses responseId).respondent ≠ 0 then
    .error (.Require "Response already exists")
  else if env.fromExternal encryptedAnswer inputProof = 0 then
    .error (.Require "Invalid encrypted input")
  else
    .ok { surveyResponses := fun s =>
            if s = responseId then
              { encryptedAnswer := env.fromExternal encryptedAnswer inputProof
                publicMetadata := publicMetadata
                respondent := sender
                timestamp := timestamp
                decryptedAnswer := 0
                isVerified := false }
            else st.surveyResponses s
          responseIds := st.responseIds ++ [responseId]
          events := st.events ++ [ContractEvent.ResponseSubmitted responseId sender] }

/-- `abi.decode(payload, (uint32))` on the 256-bit word `payload`: succeeds
iff the word is a clean `uint32`. -/
def abiDecodeUint32 (payload : Nat) : Option Nat :=
  if payload < UINT32_BOUND then some payload else none

/-- `verifyDecryption(responseId, abiEncodedClearAnswer, decryptionProof)`. -/
def verifyDecryption (env : FheEnv) (st : ContractState) (responseId : String)
    (abiEncodedClearAnswer : Nat) (decryptionProof : List Nat) :
    Except EvmError ContractState :=
  if (st.surveyResponses responseId).respondent = 0 then
    .error (.Require "Response does not exist")
  else if (st.surveyResponses responseId).isVerified then
    .error (.Require "Response already verified")
  else if env.checkSignatures [env.toBytes32 (st.surveyResponses responseId).encryptedAnswer]
      abiEncodedClearAnswer decryptionProof = false then
    .error .ProofCheckFailed
  else
    match abiDecodeUint32 abiEncodedClearAnswer with
    | none => .error .AbiDecodeError
    | some decodedAnswer =>
      .ok { surveyResponses := fun s =>
              if s = responseId then
                { st.surveyResponses responseId with
                    decryptedAnswer := decodedAnswer, isVerified := true }
              else st.surveyResponses s
            responseIds := st.responseIds
            events := st.events ++ [ContractEvent.ResponseDecrypted responseId decodedAnswer] }

/-- `getResponse(responseId)`: the public read accessor. -/
def getResponse (st : ContractState) (responseId : String) :
    Except EvmError (Nat × Nat × Nat × Bool × Nat) :=
  if (st.surveyResponses responseId).respondent = 0 then
    .error (.Require "Response does not exist")
  else
    .ok ((st.surveyResponses responseId).publicMetadata,
         (st.surveyResponses responseId).respondent,
         (st.surveyResponses responseId).timestamp,
         (st.surveyResponses responseId).isVerified,
         (st.surveyResponses responseId).decryptedAnswer)

/-- `getEncryptedAnswer(responseId)`. -/
def getEncryptedAnswer (st : ContractState) (responseId : String) :
    Except EvmError Nat :=
  if (st.surveyResponses responseId).respondent = 0 then
    .error (.Require "Response does not exist")
  else
    .ok (st.surveyResponses responseId).encryptedAnswer

/-- `getAllResponseIds()`. -/
def getAllResponseIds (st : ContractState) : List String :=
  st.responseIds

/-- `isAvailable()`. -/
def isAvailable : Bool := true

/-- The accumulation loop of `computeAverage`: walks `responseIds`,
adding verified answers into `total` and bumping `count`, both as checked
`uint32` additions.  `none` is the overflow revert. -/
def averageLoop (st : ContractState) :
    List String → Nat → Nat → Option (Nat × Nat)
  | [], total, count => some (total, count)
  | responseId :: rest, total, count =>
    if (st.surveyResponses responseId).isVerified then
      match checkedAdd32 total (st.surveyResponses responseId).decryptedAnswer,
            checkedAdd32 count 1 with
      | some t, some c => averageLoop st rest t c
      | _, _ => none
    else averageLoop st rest total count

/-- `computeAverage()`. -/
def computeAverage (st : ContractState) : Except EvmError Nat :=
  match averageLoop st st.responseIds 0 0 with
  | none => .error .ArithmeticOverflow
  | some (total, count) =>
    if count = 0 then .error (.Require "No verified responses")
    else .ok (total / count)

/-- First loop of `computeDistribution`: the running maximum of verified
decrypted answers. -/
def maxAnswerLoop (st : ContractState) : List String → Nat → Nat
  | [], maxAnswer => maxAnswer
  | responseId :: rest, maxAnswer =>
    if (st.surveyResponses responseId).isVerified ∧
        (st.surveyResponses responseId).decryptedAnswer > maxAnswer then
      maxAnswerLoop st rest (st.surveyResponses responseId).decryptedAnswer
    else maxAnswerLoop st rest maxAnswer

/-- Second loop of `computeDistribution`: bumps `distribution[bucketIndex]`
for every verified answer, with the EVM array bounds check and the checked
`uint32` increment made explicit. -/
def distLoop (st : ContractState) (bucketSize : Nat) :
    List String → List Nat → Except EvmError (List Nat)
  | [], distribution => .ok distribution
  | responseId :: rest, distribution =>
    if (st.surveyResponses responseId).isVerified then
      if (st.surveyResponses responseId).decryptedAnswer / bucketSize
          < distribution.length then
        match checkedAdd32
            (distribution.getD
              ((st.surveyResponses responseId).decryptedAnswer / bucketSize) 0) 1 with
        | none => .error .ArithmeticOverflow
        | some v =>
          distLoop st bucketSize rest
            (distribution.set
              ((st.surveyResponses responseId).decryptedAnswer / bucketSize) v)
      else .error .IndexOutOfBounds
    else distLoop st bucketSize rest distribution

/-- `computeDistribution(bucketSize)`.  The code computes
`maxAnswer / bucketSize` without guarding `bucketSize == 0`, so that case is
the division-by-zero panic; `numBuckets = maxAnswer / bucketSize + 1` is a
checked `uint32` addition. -/
def computeDistribution (st : ContractState) (bucketSize : Nat) :
    Except EvmError (List Nat) :=
  let maxAnswer := maxAnswerLoop st st.responseIds 0
  if bucketSize = 0 then .error .DivisionByZero
  else
    match checkedAdd32 (maxAnswer / bucketSize) 1 with
    | none => .error .ArithmeticOverflow
    | some numBuckets =>
      distLoop st bucketSize st.responseIds (List.replicate numBuckets 0)

/-- One successful externally-triggered transaction on the contract.
`hsender` records the EVM guarantee that `msg.sender` is never the zero
address. -/
inductive LedgerStep (env : FheEnv) : ContractState → ContractState → Prop where
  | submit (st st2 : ContractState) (sender timestamp : Nat) (responseId : String)
      (encryptedAnswer : Nat) (inputProof : List Nat) (publicMetadata : Nat)
      (hsender : sender ≠ 0)
      (h : submitResponse env sender timestamp st responseId encryptedAnswer
            inputProof publicMetadata = Except.ok st2) :
      LedgerStep env st st2
  | verify (st st2 : ContractState) (responseId : String)
      (clearAnswer : Nat) (proof : List Nat)
      (h : verifyDecryption env st responseId clearAnswer proof = Except.ok st2) :
      LedgerStep env st st2

/-- States reachable from the freshly deployed contract by successful
transactions (each possibly under a different oracle environment). -/
inductive LedgerReachable : ContractState → Prop where
  | init : LedgerReachable initialState
  | step (env : FheEnv) (st st2 : ContractState)
      (hr : LedgerReachable st) (hs : LedgerStep env st st2) :
      LedgerReachable st2

/-- The ids of verified responses among `ids`, in order. -/
def verifiedIdsOf (st : ContractState) (ids : List String) : List String :=
  ids.filter (fun s => (st.surveyResponses s).isVerified)

/-- The decrypted answers of the verified responses among `ids`, in order. -/
def verifiedAnswersOf (st : ContractState) (ids : List String) : List Nat :=
  (verifiedIdsOf st ids).map (fun s => (st.surveyResponses s).decryptedAnswer)

/-- The decrypted answers of all verified responses, in submission order. -/
def verifiedAnswers (st : ContractState) : List Nat :=
  verifiedAnswersOf st st.responseIds

/-- How many of the `answers` fall into bucket `i` for a given bucket size. -/
def bucketCount (bucketSize i : Nat) (answers : List Nat) : Nat :=
  (answers.filter (fun a => a / bucketSize = i)).length

deriving instance DecidableEq for Except

/-- The second distribution loop only looks at the verified answers. -/
def bucketLoop (bucketSize : Nat) : List Nat → List Nat → Except EvmError (List Nat)
  | [], distribution => .ok distribution
  | a :: rest, distribution =>
    if a / bucketSize < distribution.length then
      match checkedAdd32 (distribution.getD (a / bucketSize) 0) 1 with
      | none => .error .ArithmeticOverflow
      | some v => bucketLoop bucketSize rest (distribution.set (a / bucketSize) v)
    else .error .IndexOutOfBounds

/-- Structural invariant of every reachable contract state: the id index
has no duplicates, a record exists exactly when its id is indexed, and an
absent slot still holds the all-zero struct. -/
def LedgerInv (st : ContractState) : Prop :=
  st.responseIds.Nodup ∧
  (∀ s, (st.surveyResponses s).respondent ≠ 0 ↔ s ∈ st.responseIds) ∧
  (∀ s, (st.surveyResponses s).respondent = 0 → st.surveyResponses s = emptyResponse)

/-! ### Concrete oracle environments and states used by witnesses -/

/-- An oracle that accepts every input and every decryption proof. -/
def env0 : FheEnv :=
  { fromExternal := fun _ _ => 1, toBytes32 := fun h => h,
    checkSignatures := fun _ _ _ => true }

/-- An oracle that rejects every decryption proof. -/
def env1 : FheEnv :=
  { fromExternal := fun _ _ => 1, toBytes32 := fun h => h,
    checkSignatures := fun _ _ _ => false }

/-- The record stored for `"r1"` by `submitResponse env0 1 0 initialState "r1" 5 [] 0`. -/
def respA : SurveyResponse :=
  { encryptedAnswer := 1, publicMetadata := 0, respondent := 1,
    timestamp := 0, decryptedAnswer := 0, isVerified := false }

/-- The state after submitting `"r1"` to the fresh contract. -/
def stA : ContractState :=
  { surveyResponses := fun s => if s = "r1" then respA else emptyResponse
    responseIds := ["r1"]
    events := [ContractEvent.ResponseSubmitted "r1" 1] }

/-- The record for `"r1"` after its decryption is verified with clear value 7. -/
def respB : SurveyResponse :=
  { encryptedAnswer := 1, publicMetadata := 0, respondent := 1,
    timestamp := 0, decryptedAnswer := 7, isVerified := true }

/-- The state after verifying `"r1"` in `stA` with clear value 7. -/
def stB : ContractState :=
  { surveyResponses := fun s => if s = "r1" then respB else stA.surveyResponses s
    responseIds := stA.responseIds
    events := stA.events ++ [ContractEvent.ResponseDecrypted "r1" 7] }

/-- The record stored for `"r2"` by `submitResponse env0 2 1 stB "r2" 6 [] 0`. -/
def respC : SurveyResponse :=
  { encryptedAnswer := 1, publicMetadata := 0, respondent := 2,
    timestamp := 1, decryptedAnswer := 0, isVerified := false }

/-- The state after additionally submitting `"r2"` to `stB`. -/
def stC : ContractState :=
  { surveyResponses := fun s => if s = "r2" then respC else stB.surveyResponses s
    responseIds := stB.responseIds ++ ["r2"]
    events := stB.events ++ [ContractEvent.ResponseSubmitted "r2" 2] }

/-- A ledger whose listed responses are all verified, with the given
decrypted answers. -/
def mkVerifiedState (pairs : List (String × Nat)) : ContractState :=
  { surveyResponses := fun s =>
      match pairs.lookup s with
      | some v =>
        { encryptedAnswer := 1, publicMetadata := 0, respondent := 1,
          timestamp := 0, decryptedAnswer := v, isVerified := true }
      | none => emptyResponse
    responseIds := pairs.map Prod.fst
    events := [] }

/-- Verified answers 3, 5 and 10: the worked example of the average. -/
def stAvgExample : ContractState :=
  mkVerifiedState [("a", 3), ("b", 5), ("c", 10)]

/-- Two verified answers whose sum overflows `uint32`. -/
def stAvgOverflow : ContractState :=
  mkVerifiedState [("a", 4294967295), ("b", 1)]

/-- Two verified answers, each fitting `uint32`, with an overflowing sum. -/
def stSumOverflow : ContractState :=
  mkVerifiedState [("a", 4000000000), ("b", 4000000000)]

/-- Verified answers 0, 4, 5, 9 and 12: the worked example of the histogram. -/
def stDistExample : ContractState :=
  mkVerifiedState [("a", 0), ("b", 4), ("c", 5), ("d", 9), ("e", 12)]

/-- A single verified answer at the top of the `uint32` range. -/
def stDistOverflow : ContractState :=
  mkVerifiedState [("a", 4294967295)]

example : submitResponse env0 1 0 initialState "r1" 5 [] 0 = Except.ok stA := by rfl
example : verifyDecryption env0 stA "r1" 7 [] = Except.ok stB := by rfl
example : submitResponse env0 2 1 stB "r2" 6 [] 0 = Except.ok stC := by rfl
example : computeAverage stAvgExample = Except.ok 6 := by decide
example : computeAverage stAvgOverflow = Except.error EvmError.ArithmeticOverflow := by decide
example : computeDistribution stDistExample 5 = Except.ok [2, 2, 1] := by decide
example : computeDistribution stDistOverflow 1 = Except.error EvmError.ArithmeticOverflow := by decide
example : computeDistribution initialState 0 = Except.error EvmError.DivisionByZero := by decide
example : computeDistribution initialState 5 = Except.ok [0] := by decide
example : computeAverage initialState = Except.error (EvmError.Require "No verified responses") := by decide

/-! ### Inversion lemmas for the two mutating entry points -/

/-- A successful `submitResponse` call ran with the id absent, a valid
encrypted input, and produced exactly the documented state update. -/
lemma submitResponse_ok_elim (env : FheEnv) (sender timestamp : Nat)
    (st : ContractState) (responseId : String)
    (encryptedAnswer : Nat) (inputProof : List Nat) (publicMetadata : Nat)
    (st2 : ContractState)
    (h : submitResponse env sender timestamp st responseId encryptedAnswer
          inputProof publicMetadata = Except.ok st2) :
    (st.surveyResponses responseId).respondent = 0 ∧
    env.fromExternal encryptedAnswer inputProof ≠ 0 ∧
    st2 = { surveyResponses := fun s =>
              if s = responseId then
                { encryptedAnswer := env.fromExternal encryptedAnswer inputProof
                  publicMetadata := publicMetadata
                  respondent := sender
                  timestamp := timestamp
                  decryptedAnswer := 0
                  isVerified := false }
              else st.surveyResponses s
            responseIds := st.responseIds ++ [responseId]
            events := st.events ++ [ContractEvent.ResponseSubmitted responseId sender] } := by
  unfold submitResponse at h
  by_cases h1 : (st.surveyResponses responseId).respondent ≠ 0
  · simp [h1] at h
  · by_cases h2 : env.fromExternal encryptedAnswer inputProof = 0
    · simp [h1, h2] at h
    · rw [if_neg h1, if_neg h2] at h
      exact ⟨not_ne_iff.mp h1, h2, (Except.ok.inj h).symm⟩

/-- A successful `verifyDecryption` call ran on an existing, not yet
verified response, with an accepted proof and a clean `uint32` payload,
and produced exactly the documented state update. -/
lemma verifyDecryption_ok_elim (env : FheEnv) (st : ContractState)
    (responseId : String) (clearAnswer : Nat) (proof : List Nat)
    (st2 : ContractState)
    (h : verifyDecryption env st responseId clearAnswer proof = Except.ok st2) :
    (st.surveyResponses responseId).respondent ≠ 0 ∧
    (st.surveyResponses responseId).isVerified = false ∧
    env.checkSignatures [env.toBytes32 (st.surveyResponses responseId).encryptedAnswer]
      clearAnswer proof = true ∧
    clearAnswer < UINT32_BOUND ∧
    st2 = { surveyResponses := fun s =>
              if s = responseId then
                { st.surveyResponses responseId with
                    decryptedAnswer := clearAnswer, isVerified := true }
              else st.surveyResponses s
            responseIds := st.responseIds
            events := st.events ++ [ContractEvent.ResponseDecrypted responseId clearAnswer] } := by
  unfold verifyDecryption at h
  by_cases h1 : (st.surveyResponses responseId).respondent = 0
  · simp [h1] at h
  · by_cases h2 : (st.surveyResponses responseId).isVerified
    · simp [h1, h2] at h
    · by_cases h3 : env.checkSignatures
          [env.toBytes32 (st.surveyResponses responseId).encryptedAnswer]
          clearAnswer proof = false
      · simp [h1, h2, h3] at h
      · rw [if_neg h1, if_neg h2, if_neg h3] at h
        by_cases h4 : clearAnswer < UINT32_BOUND
        · simp only [abiDecodeUint32, if_pos h4] at h
          exact ⟨h1, Bool.eq_false_iff.mpr h2, Bool.not_eq_false _ ▸ h3, h4,
            (Except.ok.inj h).symm⟩
        · simp [abiDecodeUint32, if_neg h4] at h

/-! ### Characterising the `computeAverage` loop -/

/-- Unfolding `verifiedAnswersOf` over a cons cell. -/
lemma verifiedAnswersOf_cons (st : ContractState) (s : String) (ids : List String) :
    verifiedAnswersOf st (s :: ids) =
      if (st.surveyResponses s).isVerified then
        (st.surveyResponses s).decryptedAnswer :: verifiedAnswersOf st ids
      else verifiedAnswersOf st ids := by
  by_cases h : (st.surveyResponses s).isVerified <;>
    simp [verifiedAnswersOf, verifiedIdsOf, List.filter_cons, h]

/-- When both running `uint32` accumulators stay in range, the average loop
returns the sum and the count of the verified answers. -/
lemma averageLoop_eq_some (st : ContractState) (ids : List String) :
    ∀ total count : Nat,
      total + (verifiedAnswersOf st ids).sum < UINT32_BOUND →
      count + (verifiedAnswersOf st ids).length < UINT32_BOUND →
      averageLoop st ids total count =
        some (total + (verifiedAnswersOf st ids).sum,
              count + (verifiedAnswersOf st ids).length) := by
  induction ids with
  | nil => intro total count hs hc; simp [averageLoop, verifiedAnswersOf, verifiedIdsOf]
  | cons s rest ih =>
    intro total count hs hc
    rw [verifiedAnswersOf_cons] at hs hc ⊢
    by_cases hv : (st.surveyResponses s).isVerified
    · rw [if_pos hv] at hs hc ⊢
      simp only [List.sum_cons, List.length_cons] at hs hc ⊢
      have h1 : checkedAdd32 total (st.surveyResponses s).decryptedAnswer =
          some (total + (st.surveyResponses s).decryptedAnswer) := by
        unfold checkedAdd32; rw [if_pos (by omega)]
      have h2 : checkedAdd32 count 1 = some (count + 1) := by
        unfold checkedAdd32; rw [if_pos (by omega)]
      simp only [averageLoop, if_pos hv, h1, h2]
      rw [ih (total + (st.surveyResponses s).decryptedAnswer) (count + 1)
        (by omega) (by omega)]
      congr 2 <;> omega
    · rw [if_neg hv] at hs hc ⊢
      rw [averageLoop, if_neg hv]
      exact ih total count hs hc

/-- When the verified answers sum past `uint32`, the loop hits the checked
overflow and the whole call reverts. -/
lemma averageLoop_eq_none (st : ContractState) (ids : List String) :
    ∀ total count : Nat,
      total < UINT32_BOUND →
      UINT32_BOUND ≤ total + (verifiedAnswersOf st ids).sum →
      averageLoop st ids total count = none := by
  induction ids with
  | nil =>
    intro total count ht hs
    simp [verifiedAnswersOf, verifiedIdsOf] at hs
    omega
  | cons s rest ih =>
    intro total count ht hs
    rw [verifiedAnswersOf_cons] at hs
    by_cases hv : (st.surveyResponses s).isVerified
    · rw [if_pos hv] at hs
      simp only [List.sum_cons] at hs
      rw [averageLoop, if_pos hv]
      by_cases h1 : total + (st.surveyResponses s).decryptedAnswer < UINT32_BOUND
      · have e1 : checkedAdd32 total (st.surveyResponses s).decryptedAnswer =
            some (total + (st.surveyResponses s).decryptedAnswer) := by
          unfold checkedAdd32; rw [if_pos h1]
        by_cases h2 : count + 1 < UINT32_BOUND
        · have e2 : checkedAdd32 count 1 = some (count + 1) := by
            unfold checkedAdd32; rw [if_pos h2]
          rw [e1, e2]
          exact ih _ _ h1 (by omega)
        · have e2 : checkedAdd32 count 1 = none := by
            unfold checkedAdd32; rw [if_neg h2]
          rw [e1, e2]
      · have e1 : checkedAdd32 total (st.surveyResponses s).decryptedAnswer = none := by
          unfold checkedAdd32; rw [if_neg h1]
        rw [e1]
    · rw [if_neg hv] at hs
      rw [averageLoop, if_neg hv]
      exact ih total count ht hs

/-! ### Characterising the `computeDistribution` loops -/

/-- The first distribution loop computes a running maximum of the verified
answers. -/
lemma maxAnswerLoop_eq_foldl (st : ContractState) (ids : List String) :
    ∀ m : Nat, maxAnswerLoop st ids m = (verifiedAnswersOf st ids).foldl Nat.max m := by
  induction ids with
  | nil => intro m; simp [maxAnswerLoop, verifiedAnswersOf, verifiedIdsOf]
  | cons s rest ih =>
    intro m
    rw [verifiedAnswersOf_cons]
    by_cases hv : (st.surveyResponses s).isVerified
    · rw [if_pos hv]
      by_cases hgt : (st.surveyResponses s).decryptedAnswer > m
      · have hmax : Nat.max m (st.surveyResponses s).decryptedAnswer =
            (st.surveyResponses s).decryptedAnswer :=
          max_eq_right (Nat.le_of_lt hgt)
        rw [maxAnswerLoop, if_pos ⟨hv, hgt⟩, List.foldl_cons, ih, hmax]
      · have hmax : Nat.max m (st.surveyResponses s).decryptedAnswer = m :=
          max_eq_left (Nat.le_of_not_lt hgt)
        rw [maxAnswerLoop, if_neg (by intro hb; exact hgt hb.2), List.foldl_cons, ih, hmax]
    · rw [if_neg hv]
      rw [maxAnswerLoop, if_neg (by intro hb; exact hv hb.1)]
      exact ih m

/-- The seed of a `Nat.max` fold bounds the fold from below. -/
lemma foldl_max_le_seed (l : List Nat) : ∀ m : Nat, m ≤ l.foldl Nat.max m := by
  induction l with
  | nil => intro m; simp
  | cons b rest ih =>
    intro m
    rw [List.foldl_cons]
    exact le_trans (Nat.le_max_left m b) (ih (Nat.max m b))

/-- Every member of the list is bounded by a `Nat.max` fold over it. -/
lemma mem_le_foldl_max (l : List Nat) :
    ∀ m a : Nat, a ∈ l → a ≤ l.foldl Nat.max m := by
  induction l with
  | nil => intro m a ha; cases ha
  | cons b rest ih =>
    intro m a ha
    rw [List.foldl_cons]
    rcases List.mem_cons.mp ha with rfl | hrest
    · exact le_trans (Nat.le_max_right m a) (foldl_max_le_seed rest (Nat.max m a))
    · exact ih (Nat.max m b) a hrest

/-- `distLoop` over the ids equals `bucketLoop` over the verified answers. -/
lemma distLoop_eq_bucketLoop (st : ContractState) (bucketSize : Nat)
    (ids : List String) :
    ∀ distribution : List Nat,
      distLoop st bucketSize ids distribution =
        bucketLoop bucketSize (verifiedAnswersOf st ids) distribution := by
  induction ids with
  | nil => intro d; simp [distLoop, bucketLoop, verifiedAnswersOf, verifiedIdsOf]
  | cons s rest ih =>
    intro d
    rw [verifiedAnswersOf_cons]
    by_cases hv : (st.surveyResponses s).isVerified
    · rw [if_pos hv, distLoop, if_pos hv, bucketLoop]
      by_cases hlt : (st.surveyResponses s).decryptedAnswer / bucketSize < d.length
      · rw [if_pos hlt, if_pos hlt]
        cases hadd : checkedAdd32 (d.getD ((st.surveyResponses s).decryptedAnswer / bucketSize) 0) 1 with
        | none => simp [hadd]
        | some v => simp [hadd, ih]
      · rw [if_neg hlt, if_neg hlt]
    · rw [if_neg hv, distLoop, if_neg hv]
      exact ih d

/-- Reading back the just-written bucket. -/
lemma getD_set_self (l : List Nat) (i v : Nat) (h : i < l.length) :
    (l.set i v).getD i 0 = v := by
  rw [List.getD_eq_getElem _ _ (by simpa using h)]
  simp [List.getElem_set]

/-- Writing one bucket leaves the others unchanged. -/
lemma getD_set_ne (l : List Nat) (i j v : Nat) (hij : i ≠ j) :
    (l.set i v).getD j 0 = l.getD j 0 := by
  rw [List.getD_eq_getD_get?, List.getD_eq_getD_get?, List.get?_set_ne _ _ hij]

/-- Every bucket of the freshly allocated array is zero. -/
lemma getD_replicate_zero (n i : Nat) : (List.replicate n (0 : Nat)).getD i 0 = 0 := by
  rcases Nat.lt_or_ge i n with h | h
  · rw [List.getD_eq_getElem _ _ (by simpa using h)]
    simp
  · rw [List.getD_eq_default]
    simpa using h

/-- A list is the table of its `getD` values. -/
lemma map_range_getD (l : List Nat) :
    (List.range l.length).map (fun i => l.getD i 0) = l := by
  apply List.ext_getElem
  · simp
  · intro i h1 h2
    simp [List.getD_eq_getElem _ _ h2, List.getElem?_eq_getElem h2]

/-- Full characterisation of `bucketLoop`: when every answer lands in range
and no bucket counter can overflow, the loop adds to each bucket the number
of answers falling into it. -/
lemma bucketLoop_eq (bucketSize : Nat) (answers : List Nat) :
    ∀ distribution : List Nat,
      (∀ a ∈ answers, a / bucketSize < distribution.length) →
      (∀ i, distribution.getD i 0 + bucketCount bucketSize i answers < UINT32_BOUND) →
      bucketLoop bucketSize answers distribution =
        .ok ((List.range distribution.length).map
          (fun i => distribution.getD i 0 + bucketCount bucketSize i answers)) := by
  induction answers with
  | nil =>
    intro d hrange hbound
    simp only [bucketLoop, bucketCount, List.filter_nil, List.length_nil, Nat.add_zero]
    rw [map_range_getD]
  | cons a rest ih =>
    intro d hrange hbound
    have hidx : a / bucketSize < d.length := hrange a (List.mem_cons_self a rest)
    have hcnt : bucketCount bucketSize (a / bucketSize) (a :: rest) =
        bucketCount bucketSize (a / bucketSize) rest + 1 := by
      simp [bucketCount, List.filter_cons]
    have hcnt2 : ∀ i, i ≠ a / bucketSize →
        bucketCount bucketSize i (a :: rest) = bucketCount bucketSize i rest := by
      intro i hi
      have hne : ¬(a / bucketSize = i) := fun h => hi h.symm
      simp [bucketCount, List.filter_cons, hne]
    have hlt : d.getD (a / bucketSize) 0 + 1 < UINT32_BOUND := by
      have := hbound (a / bucketSize)
      omega
    have hadd : checkedAdd32 (d.getD (a / bucketSize) 0) 1 =
        some (d.getD (a / bucketSize) 0 + 1) := by
      unfold checkedAdd32; rw [if_pos hlt]
    rw [bucketLoop, if_pos hidx]
    simp only [hadd]
    have hlen : (d.set (a / bucketSize) (d.getD (a / bucketSize) 0 + 1)).length = d.length :=
      List.length_set d _ _
    rw [ih (d.set (a / bucketSize) (d.getD (a / bucketSize) 0 + 1))
      (by intro x hx; rw [hlen]; exact hrange x (List.mem_cons_of_mem a hx))
      (by
        intro i
        by_cases hi : i = a / bucketSize
        · subst hi
          rw [getD_set_self d _ _ hidx]
          have hb := hbound (a / bucketSize)
          rw [hcnt] at hb
          omega
        · rw [getD_set_ne d _ _ _ (fun h => hi h.symm), ← hcnt2 i hi]
          exact hbound i)]
    rw [hlen]
    congr 1
    apply List.map_congr_left
    intro i hi
    have hilen : i < d.length := List.mem_range.mp hi
    by_cases hcase : i = a / bucketSize
    · subst hcase
      rw [getD_set_self d _ _ hilen, hcnt]
      omega
    · rw [getD_set_ne d _ _ _ (fun h => hcase h.symm), hcnt2 i hcase]

/-! ### The ledger invariant -/

lemma ledgerInv_initial : LedgerInv initialState := by
  refine ⟨List.nodup_nil, ?_, ?_⟩
  · intro s
    simp [initialState, emptyResponse]
  · intro s _
    rfl

lemma ledgerInv_step (env : FheEnv) (st st2 : ContractState)
    (hinv : LedgerInv st) (hstep : LedgerStep env st st2) : LedgerInv st2 := by
  obtain ⟨hnd, hmem, hzero⟩ := hinv
  cases hstep with
  | submit sender timestamp responseId encryptedAnswer inputProof publicMetadata hsender h =>
    obtain ⟨habs, -, rfl⟩ := submitResponse_ok_elim env sender timestamp st responseId
      encryptedAnswer inputProof publicMetadata st2 h
    have hnotmem : responseId ∉ st.responseIds := by
      intro hm
      exact (habs ▸ (hmem responseId).mpr hm) rfl
    refine ⟨?_, ?_, ?_⟩
    · rw [List.nodup_append]
      exact ⟨hnd, List.nodup_singleton responseId,
        fun x hx hx2 => hnotmem ((List.mem_singleton.mp hx2) ▸ hx)⟩
    · intro s
      by_cases hs : s = responseId
      · subst hs
        simp [hsender]
      · simp only [hs, if_false, List.mem_append, List.mem_singleton, or_false]
        exact hmem s
    · intro s hresp
      by_cases hs : s = responseId
      · subst hs
        simp only [if_pos rfl] at hresp
        exact absurd hresp hsender
      · simp only [if_neg hs] at hresp ⊢
        exact hzero s hresp
  | verify responseId clearAnswer proof h =>
    obtain ⟨hpres, -, -, -, rfl⟩ := verifyDecryption_ok_elim env st responseId
      clearAnswer proof st2 h
    refine ⟨hnd, ?_, ?_⟩
    · intro s
      by_cases hs : s = responseId
      · subst hs
        simp only [if_pos rfl]
        exact hmem s
      · simp only [if_neg hs]
        exact hmem s
    · intro s hresp
      by_cases hs : s = responseId
      · subst hs
        simp only [if_pos rfl] at hresp
        exact absurd hresp hpres
      · simp only [if_neg hs] at hresp ⊢
        exact hzero s hresp

/-- Every reachable state satisfies the ledger invariant. -/
lemma reachable_ledgerInv (st : ContractState) (h : LedgerReachable st) :
    LedgerInv st := by
  induction h with
  | init => exact ledgerInv_initial
  | step env st st2 hr hs ih => exact ledgerInv_step env st st2 ih hs

/-- In a reachable state a verified record is a present record. -/
lemma verified_present (st : ContractState) (h : LedgerReachable st)
    (s : String) (hv : (st.surveyResponses s).isVerified = true) :
    (st.surveyResponses s).respondent ≠ 0 := by
  intro hz
  have := (reachable_ledgerInv st h).2.2 s hz
  rw [this] at hv
  simp [emptyResponse] at hv

/-! ### Reachability of the concrete witness states -/

lemma step_initial_stA : LedgerStep env0 initialState stA :=
  LedgerStep.submit initialState stA 1 0 "r1" 5 [] 0 (by decide) (by rfl)

lemma step_stA_stB : LedgerStep env0 stA stB :=
  LedgerStep.verify stA stB "r1" 7 [] (by rfl)

lemma step_stB_stC : LedgerStep env0 stB stC :=
  LedgerStep.submit stB stC 2 1 "r2" 6 [] 0 (by decide) (by rfl)

lemma reachable_stA : LedgerReachable stA :=
  LedgerReachable.step env0 initialState stA LedgerReachable.init step_initial_stA

lemma reachable_stB : LedgerReachable stB :=
  LedgerReachable.step env0 stA stB reachable_stA step_stA_stB

/-- `verifiedAnswersOf` over the full index is `verifiedAnswers`. -/
lemma verifiedAnswersOf_responseIds (st : ContractState) :
    verifiedAnswersOf st st.responseIds = verifiedAnswers st := rfl

/-! ### Claim theorems -/

/-- Claim C2: for every id whose response is already Verified in a reachable
state, a second `verifyDecryption` call reverts with the
"Response already verified" rejection (not a silent no-op), so the stored
plaintext is untouched and at most one successful verify transition can
occur per id. -/
theorem c2_second_verify_rejected (env : FheEnv) (st : ContractState)
    (responseId : String) (clearAnswer : Nat) (proof : List Nat)
    (hreach : LedgerReachable st)
    (hv : (st.surveyResponses responseId).isVerified = true) :
    verifyDecryption env st responseId clearAnswer proof =
      Except.error (EvmError.Require "Response already verified") := by
  have hpres := verified_present st hreach responseId hv
  unfold verifyDecryption
  rw [if_neg hpres, if_pos hv]

theorem c2_witness :
    verifyDecryption env0 stB "r1" 9 [] =
      Except.error (EvmError.Require "Response already verified") :=
  c2_second_verify_rejected env0 stB "r1" 9 [] reachable_stB (by decide)

/-- Claim C3: a second submit on a present id reverts with
"Response already exists" (and, the call having reverted, no state change
occurs); a successful submit atomically stores exactly one fresh
unverified record and appends the id to the order index, touching no other
record. -/
theorem c3_duplicate_submit_rejected (env : FheEnv) (sender timestamp : Nat)
    (st : ContractState) (responseId : String) (encryptedAnswer : Nat)
    (inputProof : List Nat) (publicMetadata : Nat) :
    ((st.surveyResponses responseId).respondent ≠ 0 →
      submitResponse env sender timestamp st responseId encryptedAnswer
        inputProof publicMetadata =
        Except.error (EvmError.Require "Response already exists")) ∧
    (∀ st2, submitResponse env sender timestamp st responseId encryptedAnswer
        inputProof publicMetadata = Except.ok st2 →
      st2.responseIds = st.responseIds ++ [responseId] ∧
      st2.surveyResponses responseId =
        { encryptedAnswer := env.fromExternal encryptedAnswer inputProof
          publicMetadata := publicMetadata
          respondent := sender
          timestamp := timestamp
          decryptedAnswer := 0
          isVerified := false } ∧
      (∀ s, s ≠ responseId → st2.surveyResponses s = st.surveyResponses s) ∧
      st2.events = st.events ++ [ContractEvent.ResponseSubmitted responseId sender]) := by
  constructor
  · intro hpres
    unfold submitResponse
    rw [if_pos hpres]
  · intro st2 h
    obtain ⟨-, -, rfl⟩ := submitResponse_ok_elim env sender timestamp st responseId
      encryptedAnswer inputProof publicMetadata st2 h
    refine ⟨rfl, by simp, ?_, rfl⟩
    intro s hs
    simp [if_neg hs]

theorem c3_witness :
    submitResponse env0 2 5 stA "r1" 9 [] 3 =
      Except.error (EvmError.Require "Response already exists") ∧
    stA.responseIds = initialState.responseIds ++ ["r1"] := by
  refine ⟨(c3_duplicate_submit_rejected env0 2 5 stA "r1" 9 [] 3).1 (by decide), ?_⟩
  exact ((c3_duplicate_submit_rejected env0 1 0 initialState "r1" 5 [] 0).2 stA (by rfl)).1

/-- Claim C4: `verifyDecryption` reverts with "Response does not exist" on an
unknown id, reverts with the proof-check failure when the decryption proof
does not check against the stored ciphertext handle, and on success decodes
the payload as one clean `uint32`, atomically writes the plaintext, flips
the verified flag and emits the `ResponseDecrypted` event. -/
theorem c4_verify_contract (env : FheEnv) (st : ContractState)
    (responseId : String) (clearAnswer : Nat) (proof : List Nat) :
    ((st.surveyResponses responseId).respondent = 0 →
      verifyDecryption env st responseId clearAnswer proof =
        Except.error (EvmError.Require "Response does not exist")) ∧
    ((st.surveyResponses responseId).respondent ≠ 0 →
      (st.surveyResponses responseId).isVerified = false →
      env.checkSignatures [env.toBytes32 (st.surveyResponses responseId).encryptedAnswer]
        clearAnswer proof = false →
      verifyDecryption env st responseId clearAnswer proof =
        Except.error EvmError.ProofCheckFailed) ∧
    (∀ st2, verifyDecryption env st responseId clearAnswer proof = Except.ok st2 →
      clearAnswer < UINT32_BOUND ∧
      st2.surveyResponses responseId =
        { st.surveyResponses responseId with
            decryptedAnswer := clearAnswer, isVerified := true } ∧
      (∀ s, s ≠ responseId → st2.surveyResponses s = st.surveyResponses s) ∧
      st2.responseIds = st.responseIds ∧
      st2.events = st.events ++ [ContractEvent.ResponseDecrypted responseId clearAnswer]) := by
  refine ⟨?_, ?_, ?_⟩
  · intro habs
    unfold verifyDecryption
    rw [if_pos habs]
  · intro hpres hnv hsig
    unfold verifyDecryption
    rw [if_neg hpres, if_neg (by simp [hnv]), if_pos hsig]
  · intro st2 h
    obtain ⟨-, -, -, hlt, rfl⟩ := verifyDecryption_ok_elim env st responseId
      clearAnswer proof st2 h
    refine ⟨hlt, by simp, ?_, rfl, rfl⟩
    intro s hs
    simp [if_neg hs]

theorem c4_witness :
    verifyDecryption env0 stA "zz" 7 [] =
      Except.error (EvmError.Require "Response does not exist") ∧
    verifyDecryption env1 stA "r1" 7 [] =
      Except.error EvmError.ProofCheckFailed ∧
    stB.surveyResponses "r1" =
      { stA.surveyResponses "r1" with decryptedAnswer := 7, isVerified := true } ∧
    stB.events = stA.events ++ [ContractEvent.ResponseDecrypted "r1" 7] := by
  refine ⟨(c4_verify_contract env0 stA "zz" 7 []).1 (by decide),
    (c4_verify_contract env1 stA "r1" 7 []).2.1 (by decide) (by decide) (by decide),
    ?_, ?_⟩
  · exact ((c4_verify_contract env0 stA "r1" 7 []).2.2 stB (by rfl)).2.1
  · exact ((c4_verify_contract env0 stA "r1" 7 []).2.2 stB (by rfl)).2.2.2.2

/-- Claim C7: the code has no `bucketSize == 0` guard, so
`computeDistribution(0)` hits the EVM division-by-zero panic instead of the
typed `InvalidArgument` rejection the specification requires. -/
theorem c7_missing_zero_guard :
    computeDistribution initialState 0 = Except.error EvmError.DivisionByZero := by
  decide

/-- Claim C5, counterexample: a ledger with the two verified plaintexts
4294967295 and 1 (count 2, so not the `NoVerifiedData` case) makes
`computeAverage` revert on the checked `uint32` sum instead of returning
`floor(4294967296 / 2)`, refuting the claim that the only failure mode is an
empty verified set. -/
theorem c5_counterexample :
    (verifiedAnswers stAvgOverflow).length = 2 ∧
    computeAverage stAvgOverflow = Except.error EvmError.ArithmeticOverflow :=
  ⟨by decide, by decide⟩

/-- Claim C5, amended: provided the sum and the count of the verified
plaintexts each fit in `uint32`, `computeAverage` reverts with
"No verified responses" when the count is zero and otherwise returns the
floor of sum over count. -/
theorem c5_average_characterisation (st : ContractState)
    (hsum : (verifiedAnswers st).sum < UINT32_BOUND)
    (hcount : (verifiedAnswers st).length < UINT32_BOUND) :
    ((verifiedAnswers st).length = 0 →
      computeAverage st = Except.error (EvmError.Require "No verified responses")) ∧
    (0 < (verifiedAnswers st).length →
      computeAverage st =
        Except.ok ((verifiedAnswers st).sum / (verifiedAnswers st).length)) := by
  have hloop := averageLoop_eq_some st st.responseIds 0 0
    (by rw [Nat.zero_add, verifiedAnswersOf_responseIds]; exact hsum)
    (by rw [Nat.zero_add, verifiedAnswersOf_responseIds]; exact hcount)
  rw [Nat.zero_add, Nat.zero_add, verifiedAnswersOf_responseIds] at hloop
  constructor
  · intro h0
    simp only [computeAverage, hloop]
    rw [if_pos h0]
  · intro hpos
    simp only [computeAverage, hloop]
    rw [if_neg (Nat.pos_iff_ne_zero.mp hpos)]

theorem c5_witness : computeAverage stAvgExample = Except.ok 6 := by
  rw [(c5_average_characterisation stAvgExample (by decide) (by decide)).2 (by decide)]
  decide

/-- Claim C9: the sum of verified plaintexts is accumulated in checked
32-bit arithmetic, so whenever it exceeds `2^32 - 1` the whole
`computeAverage` call reverts with the arithmetic-overflow panic instead of
returning a value. -/
theorem c9_sum_overflow_reverts (st : ContractState)
    (h : UINT32_BOUND ≤ (verifiedAnswers st).sum) :
    computeAverage st = Except.error EvmError.ArithmeticOverflow := by
  have hloop := averageLoop_eq_none st st.responseIds 0 0 (by decide)
    (by rw [Nat.zero_add, verifiedAnswersOf_responseIds]; exact h)
  simp only [computeAverage, hloop]

theorem c9_witness :
    UINT32_BOUND ≤ (verifiedAnswers stSumOverflow).sum ∧
    computeAverage stSumOverflow = Except.error EvmError.ArithmeticOverflow :=
  ⟨by decide, c9_sum_overflow_reverts stSumOverflow (by decide)⟩

/-- Claim C10: with a positive bucket size and no verified responses,
`computeDistribution` does not fail: the maximum defaults to 0 and the
call returns the single zero bucket `[0]`, whereas `computeAverage` rejects
the same state with "No verified responses". -/
theorem c10_empty_distribution (st : ContractState) (bucketSize : Nat)
    (hb : 0 < bucketSize) (hempty : verifiedAnswers st = []) :
    computeDistribution st bucketSize = Except.ok [0] ∧
    computeAverage st = Except.error (EvmError.Require "No verified responses") := by
  constructor
  · have hmax : maxAnswerLoop st st.responseIds 0 = 0 := by
      rw [maxAnswerLoop_eq_foldl, verifiedAnswersOf_responseIds, hempty, List.foldl_nil]
    have hone : checkedAdd32 (0 / bucketSize) 1 = some 1 := by
      rw [Nat.zero_div]; decide
    simp only [computeDistribution, hmax, if_neg (Nat.pos_iff_ne_zero.mp hb), hone]
    rw [distLoop_eq_bucketLoop, verifiedAnswersOf_responseIds, hempty]
    rfl
  · have hloop := averageLoop_eq_some st st.responseIds 0 0
      (by rw [Nat.zero_add, verifiedAnswersOf_responseIds, hempty]; decide)
      (by rw [Nat.zero_add, verifiedAnswersOf_responseIds, hempty]; decide)
    rw [verifiedAnswersOf_responseIds, hempty] at hloop
    simp only [computeAverage, hloop]
    rfl

theorem c10_witness :
    computeDistribution initialState 5 = Except.ok [0] ∧
    computeAverage initialState = Except.error (EvmError.Require "No verified responses") :=
  c10_empty_distribution initialState 5 (by decide) (by rfl)

/-- Claim C6, counterexample: with one verified plaintext 4294967295 and
bucket size 1 the claim promises a histogram of length
`4294967295 / 1 + 1 = 2^32`, but the checked `uint32` computation of
`numBuckets` overflows and the call reverts. -/
theorem c6_counterexample :
    (0 : Nat) < 1 ∧
    computeDistribution stDistOverflow 1 = Except.error EvmError.ArithmeticOverflow :=
  ⟨by decide, by decide⟩

/-- Claim C6, amended: for every positive bucket size such that
`maxVerifiedPlaintext / bucketSize + 1` fits in `uint32` and the verified
count fits in `uint32`, `computeDistribution` returns the histogram of
length `maxVerifiedPlaintext / bucketSize + 1` whose entry `i` counts the
verified responses with `plaintext / bucketSize = i`, zero-filled buckets
included. -/
theorem c6_distribution_characterisation (st : ContractState) (bucketSize : Nat)
    (hb : 0 < bucketSize)
    (hmax : (verifiedAnswers st).foldl Nat.max 0 / bucketSize + 1 < UINT32_BOUND)
    (hcount : (verifiedAnswers st).length < UINT32_BOUND) :
    computeDistribution st bucketSize =
      Except.ok ((List.range ((verifiedAnswers st).foldl Nat.max 0 / bucketSize + 1)).map
        (fun i => bucketCount bucketSize i (verifiedAnswers st))) := by
  have hfold : maxAnswerLoop st st.responseIds 0 = (verifiedAnswers st).foldl Nat.max 0 := by
    rw [maxAnswerLoop_eq_foldl, verifiedAnswersOf_responseIds]
  have hone : checkedAdd32 ((verifiedAnswers st).foldl Nat.max 0 / bucketSize) 1 =
      some ((verifiedAnswers st).foldl Nat.max 0 / bucketSize + 1) := by
    unfold checkedAdd32
    rw [if_pos hmax]
  simp only [computeDistribution, hfold, if_neg (Nat.pos_iff_ne_zero.mp hb), hone]
  rw [distLoop_eq_bucketLoop, verifiedAnswersOf_responseIds,
    bucketLoop_eq bucketSize (verifiedAnswers st)
      (List.replicate ((verifiedAnswers st).foldl Nat.max 0 / bucketSize + 1) 0)
      (by
        intro a ha
        rw [List.length_replicate]
        exact Nat.lt_succ_of_le
          (Nat.div_le_div_right (mem_le_foldl_max (verifiedAnswers st) 0 a ha)))
      (by
        intro i
        rw [getD_replicate_zero, Nat.zero_add]
        exact lt_of_le_of_lt (List.length_filter_le _ _) hcount)]
  rw [List.length_replicate]
  simp only [getD_replicate_zero, Nat.zero_add]

theorem c6_witness : computeDistribution stDistExample 5 = Except.ok [2, 2, 1] := by
  rw [c6_distribution_characterisation stDistExample 5 (by decide) (by decide) (by decide)]
  decide

/-- Claim C1: along every transaction from a reachable state, the verified
flag is monotone and the plaintext is frozen once verified; any change to
either field is exactly a successful verify flipping false to true; and a
successful submit always creates the record with `isVerified = false` and
`decryptedAnswer = 0` (as also reported by `getResponse`). -/
theorem c1_verification_state_machine (env : FheEnv) (st st2 : ContractState)
    (hreach : LedgerReachable st) (hstep : LedgerStep env st st2) :
    (∀ s, (st.surveyResponses s).isVerified = true →
      (st2.surveyResponses s).isVerified = true ∧
      (st2.surveyResponses s).decryptedAnswer = (st.surveyResponses s).decryptedAnswer) ∧
    (∀ s, ((st2.surveyResponses s).isVerified ≠ (st.surveyResponses s).isVerified ∨
           (st2.surveyResponses s).decryptedAnswer ≠ (st.surveyResponses s).decryptedAnswer) →
      (st.surveyResponses s).isVerified = false ∧
      (st2.surveyResponses s).isVerified = true ∧
      ∃ clearAnswer proof,
        verifyDecryption env st s clearAnswer proof = Except.ok st2) ∧
    (∀ sender timestamp responseId encryptedAnswer inputProof publicMetadata st3,
      submitResponse env sender timestamp st responseId encryptedAnswer inputProof
        publicMetadata = Except.ok st3 →
      (st3.surveyResponses responseId).isVerified = false ∧
      (st3.surveyResponses responseId).decryptedAnswer = 0 ∧
      (sender ≠ 0 → getResponse st3 responseId =
        Except.ok (publicMetadata, sender, timestamp, false, 0))) := by
  obtain ⟨-, -, hzero⟩ := reachable_ledgerInv st hreach
  refine ⟨?_, ?_, ?_⟩
  · intro s hv
    cases hstep with
    | submit sender timestamp responseId encryptedAnswer inputProof publicMetadata hsender h =>
      obtain ⟨habs, -, rfl⟩ := submitResponse_ok_elim env sender timestamp st responseId
        encryptedAnswer inputProof publicMetadata st2 h
      by_cases hs : s = responseId
      · subst hs
        rw [hzero s habs] at hv
        simp [emptyResponse] at hv
      · simp only [if_neg hs]
        exact ⟨hv, trivial⟩
    | verify responseId clearAnswer proof h =>
      obtain ⟨-, hnv, -, -, rfl⟩ := verifyDecryption_ok_elim env st responseId
        clearAnswer proof st2 h
      by_cases hs : s = responseId
      · subst hs
        rw [hnv] at hv
        cases hv
      · simp only [if_neg hs]
        exact ⟨hv, trivial⟩
  · intro s hchange
    cases hstep with
    | submit sender timestamp responseId encryptedAnswer inputProof publicMetadata hsender h =>
      obtain ⟨habs, -, rfl⟩ := submitResponse_ok_elim env sender timestamp st responseId
        encryptedAnswer inputProof publicMetadata st2 h
      exfalso
      by_cases hs : s = responseId
      · subst hs
        have hrec := hzero s habs
        rcases hchange with hc | hc
        · exact hc (by simp [hrec, emptyResponse])
        · exact hc (by simp [hrec, emptyResponse])
      · rcases hchange with hc | hc <;> exact hc (by simp [if_neg hs])
    | verify responseId clearAnswer proof h =>
      obtain ⟨-, hnv, -, -, rfl⟩ := verifyDecryption_ok_elim env st responseId
        clearAnswer proof st2 h
      by_cases hs : s = responseId
      · subst hs
        exact ⟨hnv, by simp, clearAnswer, proof, h⟩
      · exfalso
        rcases hchange with hc | hc <;> exact hc (by simp [if_neg hs])
  · intro sender timestamp responseId encryptedAnswer inputProof publicMetadata st3 h
    obtain ⟨-, -, rfl⟩ := submitResponse_ok_elim env sender timestamp st responseId
      encryptedAnswer inputProof publicMetadata st3 h
    refine ⟨by simp, by simp, ?_⟩
    intro hsender
    simp [getResponse, hsender]

theorem c1_witness :
    (stA.surveyResponses "r1").isVerified = false ∧
    (stA.surveyResponses "r1").decryptedAnswer = 0 ∧
    getResponse stA "r1" = Except.ok (0, 1, 0, false, 0) := by
  have h := (c1_verification_state_machine env0 initialState stA
    LedgerReachable.init step_initial_stA).2.2 1 0 "r1" 5 [] 0 stA (by rfl)
  exact ⟨h.1, h.2.1, h.2.2 (by decide)⟩

/-- Claim C8: `getAllResponseIds` is exactly the order index; in every
reachable state the index is duplicate-free and lists precisely the ids of
the stored records (so its length is the record count); and every further
transaction, verification included, only ever extends it on the right, so
the order of already-inserted ids never changes. -/
theorem c8_submission_order (st : ContractState) (hreach : LedgerReachable st) :
    getAllResponseIds st = st.responseIds ∧
    st.responseIds.Nodup ∧
    (∀ s, (st.surveyResponses s).respondent ≠ 0 ↔ s ∈ st.responseIds) ∧
    (∀ env st2, LedgerStep env st st2 → st.responseIds <+: st2.responseIds) := by
  obtain ⟨hnd, hmem, -⟩ := reachable_ledgerInv st hreach
  refine ⟨rfl, hnd, hmem, ?_⟩
  intro env st2 hstep
  cases hstep with
  | submit sender timestamp responseId encryptedAnswer inputProof publicMetadata hsender h =>
    obtain ⟨-, -, rfl⟩ := submitResponse_ok_elim env sender timestamp st responseId
      encryptedAnswer inputProof publicMetadata st2 h
    exact List.prefix_append _ _
  | verify responseId clearAnswer proof h =>
    obtain ⟨-, -, -, -, rfl⟩ := verifyDecryption_ok_elim env st responseId
      clearAnswer proof st2 h
    exact List.prefix_rfl

theorem c8_witness :
    getAllResponseIds stB = ["r1"] ∧
    stB.responseIds.Nodup ∧
    stB.responseIds <+: stC.responseIds := by
  have h := c8_submission_order stB reachable_stB
  exact ⟨h.1, h.2.1, h.2.2.2 env0 stC step_stB_stC⟩
